import Mathlib

/-!
Verification development for the brad-schmett-remarketing scraper.

Strings from the Python source are modelled as `List Char`; Python floats
are modelled as `ℚ` (every value the code manipulates comes from decimal
text, and no claim depends on binary rounding); Python `datetime` values
are modelled as rational timestamps.  External library calls that can fail
(base64 decoding, raw-deflate decompression, UTF-8 decoding, the network
fetch of one search page, the browser session) are modelled as explicit
function parameters returning `Option`, mirroring the `try/except`
boundaries of the source.
-/

namespace Scraper

/-- Python `needle in haystack` on strings: true iff `needle` occurs as a
contiguous substring (the empty needle always occurs). -/
def strContains (haystack needle : List Char) : Bool :=
  haystack.tails.any (fun t => needle.isPrefixOf t)

/-- Python `s.rstrip(chars)`: drop characters belonging to `chars` from the
right end of `s`. -/
def rstripSet (chars : List Char) (s : List Char) : List Char :=
  ((s.reverse.dropWhile (fun c => c ∈ chars)).reverse)

/-- Python `s.split(sep, 1)` for a non-empty separator, as an `Option`:
`some (before, after)` when `sep` occurs (split at the first occurrence),
`none` when it does not — i.e. exactly the `len(parts) == 2` test of the
source. -/
def splitOnce (sep : List Char) : List Char → Option (List Char × List Char)
  | [] => none
  | c :: rest =>
    if sep.isPrefixOf (c :: rest) then some ([], (c :: rest).drop sep.length)
    else match splitOnce sep rest with
      | some (a, b) => some (c :: a, b)
      | none => none

/-- Embedding of `token.replace("-", "+").replace("_", "/")`: URL-safe base64 alphabet to
the standard alphabet. -/
def b64UrlToStd (token : List Char) : List Char :=
  token.map (fun c => if c = '-' then '+' else if c = '_' then '/' else c)

/-- Embedding of `token_std += "=" * (4 - len(token_std) % 4)`: pad with `'='` (note the
source appends four pad characters when the length is already a multiple
of four, exactly as `4 - len % 4` evaluates in Python). -/
def padB64 (token : List Char) : List Char :=
  token ++ List.replicate (4 - token.length % 4) '='

def chimeMarker : List Char := "img.chime.me".toList

def originalMarker : List Char := "original_".toList

def jpgChars : List Char := ".jpg".toList

/-- Embedding of `decode_chime_image_url` from `src/scraper/extract.py` (the copy in
`scripts/reformat_feed.py` is textually identical logic).  The fallible
external steps — `base64.b64decode`, `zlib.decompress(·, -15)` and
`bytes.decode("utf-8")` — are parameters returning `Option`; the source's
`try/except` returning the input is the `none`-propagating fallback. -/
def decode_chime_image_url
    (b64decode : List Char → Option (List Nat))
    (inflateRaw : List Nat → Option (List Nat))
    (utf8decode : List Nat → Option (List Char))
    (chime_url : List Char) : List Char :=
  if chime_url = [] ∨ strContains chime_url chimeMarker = false then chime_url
  else
    match splitOnce originalMarker (rstripSet jpgChars chime_url) with
    | none => chime_url
    | some (_, token) =>
      match b64decode (padB64 (b64UrlToStd token)) with
      | none => chime_url
      | some compressed =>
        match inflateRaw compressed with
        | none => chime_url
        | some data =>
          match utf8decode data with
          | none => chime_url
          | some decoded => decoded

/-- The six terminal-state substrings of `Listing.is_active`
(`src/scraper/models.py`). -/
def inactiveTerms : List (List Char) :=
  ["sold".toList, "closed".toList, "pending".toList,
   "withdrawn".toList, "expired".toList, "cancelled".toList]

/-- Embedding of `Listing` from `src/scraper/models.py`.  Field defaults mirror the
pydantic model; `scraped_at` is a UTC timestamp modelled as a rational. -/
structure Listing where
  url : List Char
  lofty_id : List Char := []
  mls_id : List Char := []
  address : List Char := []
  city : List Char := []
  state : List Char := "CA".toList
  price : ℚ := 0
  bedrooms : Int := 0
  bathrooms : Int := 0
  sqft : Int := 0
  property_type : List Char := []
  status : List Char := []
  image_url : List Char := []
  description : List Char := []
  subdivision : List Char := []
  scraped_at : ℚ := 0
deriving DecidableEq

/-- Embedding of `Listing.is_active`: non-empty status whose lowercasing contains none of
the terminal-state substrings. -/
def Listing.is_active (l : Listing) : Bool :=
  let s := l.status.map Char.toLower
  !s.isEmpty && !(inactiveTerms.any (fun x => strContains s x))

/-- Numeric value of a digit string (most significant first). -/
def digitsVal (ds : List Char) : Nat :=
  ds.foldl (fun acc c => 10 * acc + (c.toNat - Char.toNat '0')) 0

/-- Python `float(s)` restricted to the digits-and-dot strings produced by
the price regex: defined iff the string has at most one dot and at least
one digit; value is exact as a rational. -/
def parseFloat (s : List Char) : Option ℚ :=
  match splitOnce ['.'] s with
  | none => if s ≠ [] ∧ s.all Char.isDigit then some (digitsVal s) else none
  | some (ip, fp) =>
    if (ip ≠ [] ∨ fp ≠ []) ∧ ip.all Char.isDigit ∧ fp.all Char.isDigit then
      some ((digitsVal ip : ℚ) + (digitsVal fp : ℚ) / ((10 : ℚ) ^ fp.length))
    else none

/-- Embedding of `_parse_price` from `src/scraper/extract.py`: strip every character
except digits and the decimal point, parse as a float, and return zero for
empty or unparseable input. -/
def parsePrice (raw : List Char) : ℚ :=
  if raw = [] then 0
  else
    let digits := raw.filter (fun c => c.isDigit || c = '.')
    match parseFloat digits with
    | some q => q
    | none => 0

/-- The price-reconciliation slice of `extract_listing`
(`src/scraper/extract.py`): phase 1 sets the price from the JSON-LD offer
price when a JSON-LD block exists, and phase 2 overwrites a falsy (zero)
price with the parsed DOM price text. -/
def extract_price (jsonldPrice : Option (List Char)) (domPrice : List Char) : ℚ :=
  let p : ℚ := match jsonldPrice with
    | some raw => parsePrice raw
    | none => 0
  if p = 0 then parsePrice domPrice else p

/-- Python `s.strip()` for the ASCII whitespace the feed text contains. -/
def stripWS (s : List Char) : List Char :=
  ((s.dropWhile Char.isWhitespace).reverse.dropWhile Char.isWhitespace).reverse

/-- Python `f"{i}"` for an integer. -/
def intToChars (i : Int) : List Char :=
  if i < 0 then '-' :: Nat.toDigits 10 i.natAbs else Nat.toDigits 10 i.natAbs

/-- Digit groups of three counted from the least significant end (input is
the reversed digit string). -/
def chunk3 : List Char → List (List Char)
  | [] => []
  | [a] => [[a]]
  | [a, b] => [[a, b]]
  | a :: b :: c :: rest => [a, b, c] :: chunk3 rest

/-- Thousands grouping of a digit string, as in Python `f"{n:,}"`. -/
def groupThousands (ds : List Char) : List Char :=
  List.intercalate [','] (((chunk3 ds.reverse).map List.reverse).reverse)

/-- Round half to even (Python float formatting rounds this way). -/
def roundHalfEven (q : ℚ) : Int :=
  let f := ⌊q⌋
  let r := q - (f : ℚ)
  if r < 1/2 then f
  else if (1:ℚ)/2 < r then f + 1
  else if Even f then f else f + 1

/-- The price cell of `FeedRow.from_listing`
(`f"${int(price):,}"` when the price is integral, else
`f"${price:,.2f}"`), on the rational price model. -/
def formatCurrency (price : ℚ) : List Char :=
  if price.den = 1 then
    if price.num < 0 then
      '$' :: '-' :: groupThousands (Nat.toDigits 10 price.num.natAbs)
    else
      '$' :: groupThousands (Nat.toDigits 10 price.num.natAbs)
  else
    let cents := roundHalfEven (price * 100)
    let sign : List Char := if cents < 0 then ['-'] else []
    let a := cents.natAbs
    let fpds := if a % 100 < 10 then '0' :: Nat.toDigits 10 (a % 100)
      else Nat.toDigits 10 (a % 100)
    '$' :: (sign ++ groupThousands (Nat.toDigits 10 (a / 100)) ++ ['.'] ++ fpds)

/-- Embedding of `Listing.listing_name` from `src/scraper/models.py`: "3BR Condo in
Palm Desert"-style name, dropping the city part first and then
hard-truncating to 25 characters. -/
def Listing.listing_name (l : Listing) : List Char :=
  let city_short :=
    if l.city ≠ [] then stripWS (l.city.takeWhile (fun c => c ≠ ',')) else []
  let parts : List (List Char) :=
    (if l.bedrooms ≠ 0 ∧ l.bedrooms > 0 then [intToChars l.bedrooms ++ "BR".toList]
     else []) ++
    (if l.property_type ≠ [] then [l.property_type] else []) ++
    (if city_short ≠ [] then ["in ".toList ++ city_short] else [])
  let name := if parts ≠ [] then List.intercalate [' '] parts else l.address
  let name :=
    if name.length > 25 ∧ city_short ≠ [] then
      let parts_no_city := parts.filter (fun p => !("in ".toList.isPrefixOf p))
      if parts_no_city ≠ [] then List.intercalate [' '] parts_no_city else l.address
    else name
  let name := if name.length > 25 then name.take 25 else name
  if name ≠ [] then name else l.address.take 25

/-- Embedding of `FeedRow` from `src/scraper/models.py`. -/
structure FeedRow where
  listing_id : List Char
  listing_name : List Char
  final_url : List Char
  image_url : List Char
  price : List Char
  city_name : List Char := []
  property_type : List Char := []
  listing_type : List Char := "For Sale".toList
  address : List Char := []
  description : List Char := []
  contextual_keywords : List Char := []
deriving DecidableEq

/-- Embedding of `FeedRow.from_listing` from `src/scraper/models.py`: projection of a
`Listing` into the feed schema. -/
def FeedRow.from_listing (l : Listing) : FeedRow :=
  let keywords : List (List Char) :=
    (if l.subdivision ≠ [] then [l.subdivision] else []) ++
    (if l.sqft ≠ 0 ∧ l.sqft > 0 then [intToChars l.sqft ++ " sqft".toList] else [])
  let desc : List Char :=
    if l.description ≠ [] then
      (stripWS ((l.description.map (fun c => if c = '\n' then ' ' else c)).map
        (fun c => if c = '\r' then ' ' else c))).take 25
    else []
  { listing_id := l.lofty_id
    listing_name := l.listing_name
    final_url := l.url
    image_url := l.image_url
    price := formatCurrency l.price
    city_name :=
      if l.city ≠ [] then (stripWS (l.city.takeWhile (fun c => c ≠ ','))).take 25
      else []
    property_type := l.property_type
    address :=
      if l.address ≠ [] ∧ l.city ≠ [] then
        l.address ++ ", ".toList ++ l.city ++ ", ".toList ++ l.state
      else l.address
    description := desc
    contextual_keywords := List.intercalate "; ".toList keywords }

/-- Embedding of `fix_address` from `scripts/reformat_feed.py`: append ", city, CA"
unless the address is empty, already mentions the city case-insensitively,
or the city is empty. -/
def fix_address (address city : List Char) : List Char :=
  if address = [] then []
  else if city ≠ [] ∧
      strContains (address.map Char.toLower) (city.map Char.toLower) = true then
    address
  else if city ≠ [] then address ++ ", ".toList ++ city ++ ", CA".toList
  else address

/-- Python `str.title()` for ASCII text: an alphabetic character is
uppercased after a non-alphabetic character and lowercased otherwise. -/
def titleCaseAux : Bool → List Char → List Char
  | _, [] => []
  | prevAlpha, c :: rest =>
    (if c.isAlpha then (if prevAlpha then c.toLower else c.toUpper) else c) ::
      titleCaseAux c.isAlpha rest

def titleCase (s : List Char) : List Char := titleCaseAux false s

/-- Embedding of `fix_description` from `scripts/reformat_feed.py`: truncate to 25
characters and title-case when more than half of the truncated characters
are uppercase (`sum > len * 0.5` is exact, so it is `2 * sum > len`). -/
def fix_description (desc : List Char) : List Char :=
  let d := desc.take 25
  if d ≠ [] ∧ 2 * (d.filter Char.isUpper).length > d.length then titleCase d else d

/-- The emission filter of `write_feed` (`src/scraper/feed.py`):
`lst.is_active and lst.mls_id`. -/
def feedFilter (l : Listing) : Bool := l.is_active && !l.mls_id.isEmpty

/-- Embedding of `write_feed` from `src/scraper/feed.py`.  The first component models
the file: `none` means the feed file is not opened or written at all
(the early `return 0`), `some rows` means the file is overwritten with a
header plus exactly these data rows in order.  The second component is the
returned count. -/
def write_feed (listings : List Listing) : Option (List FeedRow) × Nat :=
  let active := listings.filter feedFilter
  if active.isEmpty then (none, 0)
  else (some (active.map FeedRow.from_listing), active.length)

/-- Embedding of `StateEntry` from `src/scraper/models.py` (timestamps as rationals). -/
structure StateEntry where
  url : List Char
  mls_id : List Char := []
  last_scraped : ℚ
  last_price : ℚ := 0
  status : List Char := []
deriving DecidableEq

/-- The `StateManager._entries` dict keyed by URL, as an association list;
`lookupEntry` is `self._entries.get(url)`. -/
def lookupEntry (entries : List (List Char × StateEntry)) (url : List Char) :
    Option StateEntry :=
  (entries.find? (fun p => decide (p.1 = url))).map Prod.snd

/-- Embedding of `StateManager.is_stale` (`src/scraper/state.py`): no entry, or scraped
strictly before `now − window`, where `window` models
`timedelta(hours=settings.stale_hours)` and `now` models
`datetime.utcnow()`. -/
def is_stale (entries : List (List Char × StateEntry)) (window now : ℚ)
    (url : List Char) : Bool :=
  match lookupEntry entries url with
  | none => true
  | some e => decide (e.last_scraped < now - window)

/-- Embedding of `StateManager.filter_stale`: keep only the stale URLs. -/
def filter_stale (entries : List (List Char × StateEntry)) (window now : ℚ)
    (urls : List (List Char)) : List (List Char) :=
  urls.filter (fun u => is_stale entries window now u)

/-- One raw item of the search-API response as shaped by the in-page
JavaScript of `_fetch_page` (`src/scraper/discover.py`); numeric defaults
of zero and empty strings mirror the `|| 0` / `|| ''` fallbacks. -/
structure RawItem where
  id : Nat
  mlsId : List Char := []
  price : ℚ := 0
  bedrooms : Int := 0
  bathrooms : Int := 0
  sqft : Int := 0
  propertyType : List Char := []
  status : List Char := []
  street : List Char := []
  city : List Char := []
  state : List Char := []
  zip : List Char := []
  image : List Char := []
  description : List Char := []
  detailUrl : List Char := []
  subdivision : List Char := []
deriving DecidableEq

/-- The per-item conversion of `_fetch_page`
(`src/scraper/discover.py` lines 162-188): skip items with a falsy id
(modelled as 0), prefix the base URL onto relative detail paths, default
the status to "Active", and build the city as
`f"{city}, {state} {zip}".strip()`. -/
def convertItem (base : List Char) (item : RawItem) : Option Listing :=
  if item.id = 0 then none
  else
    some { url :=
             if item.detailUrl ≠ [] ∧ ¬("http".toList.isPrefixOf item.detailUrl) then
               base ++ item.detailUrl
             else item.detailUrl
           lofty_id := Nat.toDigits 10 item.id
           mls_id := item.mlsId
           price := item.price
           bedrooms := item.bedrooms
           bathrooms := item.bathrooms
           sqft := item.sqft
           property_type := item.propertyType
           status := if item.status = [] then "Active".toList else item.status
           address := item.street
           city := stripWS (item.city ++ ", ".toList ++ item.state ++ [' '] ++ item.zip)
           image_url := item.image
           description := item.description
           subdivision := item.subdivision }

/-- All convertible items of one page, in order. -/
def convertPage (base : List Char) (items : List RawItem) : List Listing :=
  items.filterMap (convertItem base)

def PAGE_SIZE : Nat := 100

/-- Embedding of `_fetch_page` (`src/scraper/discover.py`): one page request.  `api`
abstracts the in-browser fetch plus JSON shaping; `none` models a non-OK
HTTP status or a thrown exception, for which the source returns an empty
batch. -/
def fetch_page (api : Nat → Option (List RawItem)) (base : List Char) (n : Nat) :
    List Listing :=
  match api n with
  | none => []
  | some items => convertPage base items

/-- The pagination loop of `discover_and_extract`
(`src/scraper/discover.py` lines 76-97): request page `page`, stop on an
empty batch, on a batch shorter than `PAGE_SIZE`, or on reaching a
non-zero `maxListings` (truncating); otherwise advance to the next page.
`fuel` bounds the iterations so the function is total; `none` means fuel
ran out (the theorems always supply enough). -/
def discoverLoop (fetch : Nat → List Listing) (maxListings : Nat) :
    Nat → Nat → List Listing → Option (List Listing)
  | 0, _, _ => none
  | fuel + 1, page, acc =>
    let batch := fetch page
    if batch.isEmpty then some acc
    else
      let acc2 := acc ++ batch
      if batch.length < PAGE_SIZE then some acc2
      else if maxListings ≠ 0 ∧ maxListings ≤ acc2.length then some (acc2.take maxListings)
      else discoverLoop fetch maxListings fuel (page + 1) acc2

/-- Embedding of `discover_and_extract` (`src/scraper/discover.py`): establish a
session — abstracted to a boolean, the source returning an empty list on
failure — then paginate from page 1 with an empty accumulator. -/
def discover_and_extract (sessionOk : Bool) (api : Nat → Option (List RawItem))
    (base : List Char) (maxListings fuel : Nat) : Option (List Listing) :=
  if sessionOk then discoverLoop (fetch_page api base) maxListings fuel 1 []
  else some []


/-- When every step of the decode succeeds, the decoder returns the
decoded text. -/
theorem decode_chime_eq_of_steps
    (b64decode : List Char → Option (List Nat))
    (inflateRaw : List Nat → Option (List Nat))
    (utf8decode : List Nat → Option (List Char))
    (chime_url pre token : List Char) (compressed data : List Nat)
    (decoded : List Char)
    (hguard : ¬(chime_url = [] ∨ strContains chime_url chimeMarker = false))
    (hs : splitOnce originalMarker (rstripSet jpgChars chime_url) = some (pre, token))
    (hb : b64decode (padB64 (b64UrlToStd token)) = some compressed)
    (hi : inflateRaw compressed = some data)
    (hu : utf8decode data = some decoded) :
    decode_chime_image_url b64decode inflateRaw utf8decode chime_url = decoded := by
  simp [decode_chime_image_url, hguard, hs, hb, hi, hu]

/-- The decoder either returns its input, or every guard and step
succeeded. -/
theorem decode_chime_cases
    (b64decode : List Char → Option (List Nat))
    (inflateRaw : List Nat → Option (List Nat))
    (utf8decode : List Nat → Option (List Char))
    (chime_url : List Char) :
    decode_chime_image_url b64decode inflateRaw utf8decode chime_url = chime_url ∨
    ∃ pre token compressed data decoded,
      chime_url ≠ [] ∧
      strContains chime_url chimeMarker = true ∧
      splitOnce originalMarker (rstripSet jpgChars chime_url) = some (pre, token) ∧
      b64decode (padB64 (b64UrlToStd token)) = some compressed ∧
      inflateRaw compressed = some data ∧
      utf8decode data = some decoded ∧
      decode_chime_image_url b64decode inflateRaw utf8decode chime_url = decoded := by
  by_cases hguard : chime_url = [] ∨ strContains chime_url chimeMarker = false
  · left
    unfold decode_chime_image_url
    rw [if_pos hguard]
  · have hne : chime_url ≠ [] := fun h => hguard (Or.inl h)
    have hmark : strContains chime_url chimeMarker = true := by
      cases h : strContains chime_url chimeMarker
      · exact absurd (Or.inr h) hguard
      · rfl
    rcases hsplit : splitOnce originalMarker (rstripSet jpgChars chime_url) with _ | ⟨pre, token⟩
    · left
      simp [decode_chime_image_url, hguard, hsplit]
    · rcases hb : b64decode (padB64 (b64UrlToStd token)) with _ | compressed
      · left
        simp [decode_chime_image_url, hguard, hsplit, hb]
      · rcases hi : inflateRaw compressed with _ | data
        · left
          simp [decode_chime_image_url, hguard, hsplit, hb, hi]
        · rcases hu : utf8decode data with _ | decoded
          · left
            simp [decode_chime_image_url, hguard, hsplit, hb, hi, hu]
          · right
            refine ⟨pre, token, compressed, data, decoded, hne, hmark, rfl, hb, hi, hu,
              decode_chime_eq_of_steps _ _ _ _ _ _ _ _ _ hguard hsplit hb hi hu⟩

/-- C1: the decoder is total (it is a Lean function, so it cannot raise) and
either returns its input unchanged, or every guard and decoding step
succeeded and the result is the decoded UTF-8 text.  Conjuncts: the three
early guards each force identity, a non-identity result certifies a fully
successful decode, and a fully successful decode yields the decoded text. -/
theorem decode_chime_image_url_fallback
    (b64decode : List Char → Option (List Nat))
    (inflateRaw : List Nat → Option (List Nat))
    (utf8decode : List Nat → Option (List Char))
    (chime_url : List Char) :
    (chime_url = [] →
      decode_chime_image_url b64decode inflateRaw utf8decode chime_url = chime_url) ∧
    (strContains chime_url chimeMarker = false →
      decode_chime_image_url b64decode inflateRaw utf8decode chime_url = chime_url) ∧
    (splitOnce originalMarker (rstripSet jpgChars chime_url) = none →
      decode_chime_image_url b64decode inflateRaw utf8decode chime_url = chime_url) ∧
    (decode_chime_image_url b64decode inflateRaw utf8decode chime_url ≠ chime_url →
      ∃ pre token compressed data decoded,
        chime_url ≠ [] ∧
        strContains chime_url chimeMarker = true ∧
        splitOnce originalMarker (rstripSet jpgChars chime_url) = some (pre, token) ∧
        b64decode (padB64 (b64UrlToStd token)) = some compressed ∧
        inflateRaw compressed = some data ∧
        utf8decode data = some decoded ∧
        decode_chime_image_url b64decode inflateRaw utf8decode chime_url = decoded) ∧
    (∀ pre token compressed data decoded,
      chime_url ≠ [] →
      strContains chime_url chimeMarker = true →
      splitOnce originalMarker (rstripSet jpgChars chime_url) = some (pre, token) →
      b64decode (padB64 (b64UrlToStd token)) = some compressed →
      inflateRaw compressed = some data →
      utf8decode data = some decoded →
      decode_chime_image_url b64decode inflateRaw utf8decode chime_url = decoded) := by
  refine ⟨?_, ?_, ?_, ?_, ?_⟩
  · intro h
    unfold decode_chime_image_url
    rw [if_pos (Or.inl h)]
  · intro h
    unfold decode_chime_image_url
    rw [if_pos (Or.inr h)]
  · intro h
    by_cases hguard : chime_url = [] ∨ strContains chime_url chimeMarker = false
    · unfold decode_chime_image_url
      rw [if_pos hguard]
    · simp [decode_chime_image_url, hguard, h]
  · intro hcon
    rcases decode_chime_cases b64decode inflateRaw utf8decode chime_url with heq | hsucc
    · exact absurd heq hcon
    · exact hsucc
  · intro pre token compressed data decoded hne hmark hs hb hi hu
    refine decode_chime_eq_of_steps _ _ _ _ _ _ _ _ _ ?_ hs hb hi hu
    intro hor
    rcases hor with h | h
    · exact hne h
    · rw [hmark] at h
      cases h

/-- Witness for `decode_chime_image_url_fallback`: concrete instantiation.
A URL without the proxy-host marker decodes to itself, and a well-formed
token with succeeding external steps decodes to the embedded text. -/
theorem decode_chime_image_url_fallback_witness :
    decode_chime_image_url (fun _ => none) (fun _ => none) (fun _ => none)
      ("https://example.com/a.jpg".toList) = "https://example.com/a.jpg".toList ∧
    decode_chime_image_url (fun _ => some [1]) (fun _ => some [2])
      (fun _ => some ("http://cdn/x".toList))
      ("https://img.chime.me/imageemb/original_AbC.jpg".toList) = "http://cdn/x".toList := by
  constructor
  · exact (decode_chime_image_url_fallback (fun _ => none) (fun _ => none) (fun _ => none)
      ("https://example.com/a.jpg".toList)).2.1 (by decide)
  · exact (decode_chime_image_url_fallback (fun _ => some [1]) (fun _ => some [2])
      (fun _ => some ("http://cdn/x".toList))
      ("https://img.chime.me/imageemb/original_AbC.jpg".toList)).2.2.2.2
      ("https://img.chime.me/imageemb/".toList) ("AbC".toList) [1] [2]
      ("http://cdn/x".toList) (by decide) (by decide) (by decide) rfl rfl rfl

/-- Fact: `t.isPrefixOf s` certifies an append decomposition. -/
theorem isPrefixOf_iff_exists (t s : List Char) :
    t.isPrefixOf s = true ↔ ∃ r, s = t ++ r := by
  constructor
  · intro h
    obtain ⟨r, hr⟩ := List.isPrefixOf_iff_prefix.mp h
    exact ⟨r, hr.symm⟩
  · rintro ⟨r, rfl⟩
    exact List.isPrefixOf_iff_prefix.mpr ⟨r, rfl⟩

/-- Fact: `strContains s t` holds exactly when `t` occurs contiguously in `s`. -/
theorem strContains_iff (s t : List Char) :
    strContains s t = true ↔ ∃ p q, s = p ++ t ++ q := by
  unfold strContains
  rw [List.any_eq_true]
  constructor
  · rintro ⟨u, hu, hpre⟩
    obtain ⟨p, hp⟩ := (List.mem_tails u s).mp hu
    obtain ⟨q, hq⟩ := isPrefixOf_iff_exists t u |>.mp hpre
    exact ⟨p, q, by rw [← hp, hq, List.append_assoc]⟩
  · rintro ⟨p, q, rfl⟩
    refine ⟨t ++ q, ?_, ?_⟩
    · exact (List.mem_tails _ _).mpr ⟨p, by rw [List.append_assoc]⟩
    · exact isPrefixOf_iff_exists t (t ++ q) |>.mpr ⟨q, rfl⟩

/-- C2: `is_active` is true iff the status is non-empty and its lowercasing
contains none of the substrings sold/closed/pending/withdrawn/expired/
cancelled; in particular it is false on "Sold", "sold 3/1" and "", and true
on "Active" and "Open Sun 1PM-3PM". -/
theorem is_active_characterization :
    (∀ l : Listing,
      l.is_active = true ↔
        l.status ≠ [] ∧
        ∀ t ∈ inactiveTerms, ¬ ∃ p q, l.status.map Char.toLower = p ++ t ++ q) ∧
    Listing.is_active { url := [], status := "Sold".toList } = false ∧
    Listing.is_active { url := [], status := "sold 3/1".toList } = false ∧
    Listing.is_active { url := [], status := [] } = false ∧
    Listing.is_active { url := [], status := "Active".toList } = true ∧
    Listing.is_active { url := [], status := "Open Sun 1PM-3PM".toList } = true := by
  refine ⟨?_, by decide, by decide, by decide, by decide, by decide⟩
  intro l
  simp only [Listing.is_active, Bool.and_eq_true, Bool.not_eq_true',
    List.any_eq_false, List.isEmpty_eq_false, ne_eq, List.map_eq_nil_iff]
  constructor
  · rintro ⟨hne, hall⟩
    exact ⟨hne, fun t ht hex => hall t ht ((strContains_iff _ t).mpr hex)⟩
  · rintro ⟨hne, hall⟩
    exact ⟨hne, fun t ht hc => hall t ht ((strContains_iff _ t).mp hc)⟩

/-- C4: the canonical price is the parsed structured (JSON-LD) price when
that parse is non-zero, else the parsed rendered (DOM) price text, both
parsed by the same digits-and-dot rule with zero for empty or unparseable
input; concretely 500000/0 gives 500000 and 0/"$575,000" gives 575000. -/
theorem extract_price_precedence :
    (∀ s d, parsePrice s ≠ 0 → extract_price (some s) d = parsePrice s) ∧
    (∀ s d, parsePrice s = 0 → extract_price (some s) d = parsePrice d) ∧
    (∀ d, extract_price none d = parsePrice d) ∧
    parsePrice [] = 0 ∧
    (∀ raw, raw ≠ [] → parseFloat (raw.filter (fun c => c.isDigit || c = '.')) = none →
      parsePrice raw = 0) ∧
    extract_price (some ("500000".toList)) ("0".toList) = 500000 ∧
    extract_price (some ("0".toList)) ("$575,000".toList) = 575000 := by
  refine ⟨?_, ?_, ?_, rfl, ?_, by decide, by decide⟩
  · intro s d h
    simp [extract_price, h]
  · intro s d h
    simp [extract_price, h]
  · intro d
    simp [extract_price]
  · intro raw hne hnone
    simp [parsePrice, hne, hnone]

/-- Witness for `extract_price_precedence`: the structured price "500000"
parses non-zero, so it wins over any rendered text. -/
theorem extract_price_precedence_witness :
    parsePrice ("500000".toList) ≠ 0 ∧
    extract_price (some ("500000".toList)) ("$999".toList) = parsePrice ("500000".toList) := by
  have h : parsePrice ("500000".toList) ≠ 0 := by decide
  exact ⟨h, extract_price_precedence.1 ("500000".toList) ("$999".toList) h⟩

/-- C8 counterexample: the claim asserts that the Address produced by
`FeedRow.from_listing` is left unchanged when the address already mentions
the city; on a listing whose address "1 Oak Ave, Indio" contains its city
"Indio", `from_listing` still appends ", Indio, CA", so the claim is false
(while `fix_address` does leave it unchanged). -/
theorem from_listing_address_mentions_city_counterexample :
    let l : Listing :=
      { url := [], address := "1 Oak Ave, Indio".toList, city := "Indio".toList }
    l.address ≠ [] ∧
    strContains (l.address.map Char.toLower) (l.city.map Char.toLower) = true ∧
    fix_address l.address l.city = l.address ∧
    (FeedRow.from_listing l).address ≠ l.address ∧
    (FeedRow.from_listing l).address = "1 Oak Ave, Indio, Indio, CA".toList := by
  decide

/-- C8 amended: `fix_address` returns empty for an empty address, appends
", city, CA" when the non-empty address does not mention the non-empty
city case-insensitively, and returns the address unchanged when it does
mention the city or the city is empty; `FeedRow.from_listing` produces an
empty Address for an empty address and otherwise appends ", city, state"
whenever the city is non-empty — with no already-mentions-city check —
and leaves the address unchanged when the city is empty. -/
theorem address_completion_characterization :
    (∀ city, fix_address [] city = []) ∧
    (∀ a c, a ≠ [] →
      strContains (a.map Char.toLower) (c.map Char.toLower) = false →
      fix_address a c = a ++ ", ".toList ++ c ++ ", CA".toList) ∧
    (∀ a c, a ≠ [] → c ≠ [] →
      strContains (a.map Char.toLower) (c.map Char.toLower) = true →
      fix_address a c = a) ∧
    (∀ a, fix_address a [] = a) ∧
    (∀ l : Listing, l.address = [] → (FeedRow.from_listing l).address = []) ∧
    (∀ l : Listing, l.address ≠ [] → l.city ≠ [] →
      (FeedRow.from_listing l).address =
        l.address ++ ", ".toList ++ l.city ++ ", ".toList ++ l.state) ∧
    (∀ l : Listing, l.city = [] → (FeedRow.from_listing l).address = l.address) := by
  refine ⟨?_, ?_, ?_, ?_, ?_, ?_, ?_⟩
  · intro city
    simp [fix_address]
  · intro a c ha hcontains
    have hc : c ≠ [] := by
      intro hceq
      subst hceq
      have htrue : strContains (a.map Char.toLower) (([] : List Char).map Char.toLower) = true :=
        (strContains_iff _ _).mpr ⟨[], a.map Char.toLower, by simp⟩
      rw [htrue] at hcontains
      cases hcontains
    simp [fix_address, ha, hc, hcontains]
  · intro a c ha hc hcontains
    simp [fix_address, ha, hc, hcontains]
  · intro a
    by_cases ha : a = []
    · simp [fix_address, ha]
    · simp [fix_address, ha]
  · intro l hl
    simp [FeedRow.from_listing, hl]
  · intro l ha hc
    simp [FeedRow.from_listing, ha, hc]
  · intro l hc
    by_cases ha : l.address = []
    · simp [FeedRow.from_listing, ha]
    · simp [FeedRow.from_listing, ha, hc]

/-- Witness for `address_completion_characterization`: applying the
append case to a concrete address and city. -/
theorem address_completion_characterization_witness :
    ("12 Palm Way".toList ≠ ([] : List Char)) ∧
    strContains ("12 palm way".toList) ("indio".toList) = false ∧
    fix_address ("12 Palm Way".toList) ("Indio".toList) =
      "12 Palm Way, Indio, CA".toList := by
  refine ⟨by decide, by decide, ?_⟩
  have h := address_completion_characterization.2.1
    ("12 Palm Way".toList) ("Indio".toList) (by decide) (by decide)
  exact h

/-- Title-casing never changes the length. -/
theorem titleCaseAux_length (b : Bool) (s : List Char) :
    (titleCaseAux b s).length = s.length := by
  induction s generalizing b with
  | nil => rfl
  | cons c rest ih => simp [titleCaseAux, ih]

/-- C9 counterexample: the claim asserts the uppercase-majority title-case
conversion is applied by `FeedRow.from_listing`; on a listing whose
description is thirty capital letter A, the emitted Description is
twenty-five capital letter A — majority-uppercase yet different from its
title-cased form — so `from_listing` does not apply the conversion
(while `fix_description` on the same text does). -/
theorem from_listing_description_no_titlecase_counterexample :
    let l : Listing := { url := [], description := List.replicate 30 'A' }
    (FeedRow.from_listing l).description = List.replicate 25 'A' ∧
    2 * ((List.replicate 25 'A').filter Char.isUpper).length >
      (List.replicate 25 'A').length ∧
    titleCase (List.replicate 25 'A') ≠ List.replicate 25 'A' ∧
    (FeedRow.from_listing l).description ≠
      titleCase ((FeedRow.from_listing l).description) ∧
    fix_description (List.replicate 30 'A') = titleCase (List.replicate 25 'A') := by
  decide

/-- C9 amended: every Description emitted by `FeedRow.from_listing` and
every result of `fix_description` is at most 25 characters; the
uppercase-majority title-case conversion is applied by `fix_description`
(and only there — `from_listing` truncates without converting, per the
counterexample). -/
theorem description_normalization_characterization :
    (∀ l : Listing, (FeedRow.from_listing l).description.length ≤ 25) ∧
    (∀ d, (fix_description d).length ≤ 25) ∧
    (∀ d, d.take 25 ≠ [] →
      2 * ((d.take 25).filter Char.isUpper).length > (d.take 25).length →
      fix_description d = titleCase (d.take 25)) ∧
    (∀ d, ¬(d.take 25 ≠ [] ∧
        2 * ((d.take 25).filter Char.isUpper).length > (d.take 25).length) →
      fix_description d = d.take 25) := by
  refine ⟨?_, ?_, ?_, ?_⟩
  · intro l
    by_cases hd : l.description = []
    · simp [FeedRow.from_listing, hd]
    · have hdesc : (FeedRow.from_listing l).description =
        (stripWS ((l.description.map (fun c => if c = '\n' then ' ' else c)).map
          (fun c => if c = '\r' then ' ' else c))).take 25 := by
        simp [FeedRow.from_listing, hd]
      rw [hdesc, List.length_take]
      omega
  · intro d
    simp only [fix_description]
    by_cases h : d.take 25 ≠ [] ∧
        2 * ((d.take 25).filter Char.isUpper).length > (d.take 25).length
    · rw [if_pos h]
      simp only [titleCase]
      rw [titleCaseAux_length, List.length_take]
      omega
    · rw [if_neg h, List.length_take]
      omega
  · intro d hne hmaj
    simp only [fix_description]
    rw [if_pos ⟨hne, hmaj⟩]
  · intro d h
    simp only [fix_description]
    rw [if_neg h]

/-- Witness for `description_normalization_characterization`: the
title-case branch applied to a concrete majority-uppercase text. -/
theorem description_normalization_characterization_witness :
    ("GORGEOUS DESERT POOL HOME WITH VIEWS".toList.take 25 ≠ ([] : List Char)) ∧
    2 * (("GORGEOUS DESERT POOL HOME WITH VIEWS".toList.take 25).filter
      Char.isUpper).length > ("GORGEOUS DESERT POOL HOME WITH VIEWS".toList.take 25).length ∧
    fix_description ("GORGEOUS DESERT POOL HOME WITH VIEWS".toList) =
      "Gorgeous Desert Pool Home".toList := by
  refine ⟨by decide, by decide, ?_⟩
  have h := description_normalization_characterization.2.2.1
    ("GORGEOUS DESERT POOL HOME WITH VIEWS".toList) (by decide) (by decide)
  rw [h]
  decide

/-- C5: `write_feed` emits exactly one row, in order, for each listing that
is active with a non-empty MLS id, and no other rows; the returned count
equals the number of such listings; every emitted row comes from a listing
with a non-empty MLS id (so a listing with an empty MLS id never appears,
whatever its active status). -/
theorem write_feed_rows_characterization :
    (∀ listings : List Listing,
      (write_feed listings).2 = (listings.filter feedFilter).length) ∧
    (∀ listings : List Listing, listings.filter feedFilter ≠ [] →
      (write_feed listings).1 =
        some ((listings.filter feedFilter).map FeedRow.from_listing)) ∧
    (∀ (listings : List Listing) (rows : List FeedRow),
      (write_feed listings).1 = some rows →
      rows = (listings.filter feedFilter).map FeedRow.from_listing) ∧
    (∀ (listings : List Listing) (rows : List FeedRow) (r : FeedRow),
      (write_feed listings).1 = some rows → r ∈ rows →
      ∃ l, l ∈ listings ∧ l.is_active = true ∧ l.mls_id ≠ [] ∧
        r = FeedRow.from_listing l) := by
  have hchar : ∀ listings : List Listing,
      (write_feed listings).1 = some ((listings.filter feedFilter).map FeedRow.from_listing) ∨
      ((write_feed listings).1 = none ∧ listings.filter feedFilter = []) := by
    intro listings
    unfold write_feed
    by_cases h : (listings.filter feedFilter).isEmpty
    · right
      rw [if_pos h]
      exact ⟨rfl, List.isEmpty_iff.mp h⟩
    · left
      rw [if_neg h]
  refine ⟨?_, ?_, ?_, ?_⟩
  · intro listings
    unfold write_feed
    by_cases h : (listings.filter feedFilter).isEmpty
    · rw [if_pos h]
      rw [List.isEmpty_iff.mp h]
      rfl
    · rw [if_neg h]
  · intro listings hne
    rcases hchar listings with h | ⟨_, hempty⟩
    · exact h
    · exact absurd hempty hne
  · intro listings rows hrows
    rcases hchar listings with h | ⟨hnone, _⟩
    · rw [h] at hrows
      exact (Option.some_inj.mp hrows).symm
    · rw [hnone] at hrows
      cases hrows
  · intro listings rows r hrows hr
    rcases hchar listings with h | ⟨hnone, _⟩
    · rw [h] at hrows
      rw [← Option.some_inj.mp hrows] at hr
      obtain ⟨l, hl, rfl⟩ := List.mem_map.mp hr
      have hmem := List.mem_filter.mp hl
      have hf := hmem.2
      unfold feedFilter at hf
      rw [Bool.and_eq_true] at hf
      refine ⟨l, hmem.1, hf.1, ?_, rfl⟩
      have := hf.2
      rw [Bool.not_eq_true'] at this
      exact List.isEmpty_eq_false.mp this
    · rw [hnone] at hrows
      cases hrows

/-- Witness for `write_feed_rows_characterization`: one active listing
with an MLS id and one without; only the first is emitted. -/
theorem write_feed_rows_characterization_witness :
    let withId : Listing :=
      { url := "u1".toList, mls_id := "M1".toList, status := "Active".toList }
    let noId : Listing := { url := "u2".toList, status := "Active".toList }
    [withId, noId].filter feedFilter ≠ [] ∧
    (write_feed [withId, noId]).1 = some [FeedRow.from_listing withId] := by
  intro withId noId
  refine ⟨by decide, ?_⟩
  have h := write_feed_rows_characterization.2.1 [withId, noId] (by decide)
  rw [h]
  decide

/-- Fact: `feedFilter` holds iff active with a non-empty MLS id. -/
theorem feedFilter_eq_true (l : Listing) :
    feedFilter l = true ↔ l.is_active = true ∧ l.mls_id ≠ [] := by
  unfold feedFilter
  rw [Bool.and_eq_true, Bool.not_eq_true', List.isEmpty_eq_false]

/-- C6: `write_feed` performs no file write and returns 0 exactly when no
listing passes the active-and-non-empty-MLS-id filter; the file is written
(`some` rows) iff at least one listing survives, so an existing feed file
is left untouched when nothing survives. -/
theorem write_feed_no_write_on_empty :
    (∀ listings : List Listing,
      ((write_feed listings).1 = none ↔
        ∀ l ∈ listings, ¬(l.is_active = true ∧ l.mls_id ≠ []))) ∧
    (∀ listings : List Listing,
      ((write_feed listings).1 = none ↔ (write_feed listings).2 = 0)) ∧
    (∀ listings : List Listing,
      (write_feed listings).1 = none → write_feed listings = (none, 0)) := by
  have hkey : ∀ listings : List Listing,
      (write_feed listings).1 = none ↔ listings.filter feedFilter = [] := by
    intro listings
    unfold write_feed
    by_cases h : (listings.filter feedFilter).isEmpty
    · rw [if_pos h]
      simp [List.isEmpty_iff.mp h]
    · rw [if_neg h]
      rw [List.isEmpty_iff] at h
      simp [h]
  refine ⟨?_, ?_, ?_⟩
  · intro listings
    rw [hkey, List.filter_eq_nil_iff]
    constructor
    · intro hall l hl hact
      exact absurd ((feedFilter_eq_true l).mpr hact) (by simpa using hall l hl)
    · intro hall l hl
      simp only [Bool.not_eq_true]
      cases hf : feedFilter l
      · rfl
      · exact absurd ((feedFilter_eq_true l).mp hf) (hall l hl)
  · intro listings
    rw [hkey]
    unfold write_feed
    by_cases h : (listings.filter feedFilter).isEmpty
    · rw [if_pos h]
      simp [List.isEmpty_iff.mp h]
    · rw [if_neg h]
      rw [List.isEmpty_iff] at h
      simp [List.length_eq_zero, h]
  · intro listings hnone
    have hfil := (hkey listings).mp hnone
    simp [write_feed, hfil]

/-- Witness for `write_feed_no_write_on_empty`: a single sold listing
survives nothing, so nothing is written and the count is 0. -/
theorem write_feed_no_write_on_empty_witness :
    (write_feed [{ url := "u".toList, mls_id := "M".toList, status := "Sold".toList }]).1 = none ∧
    write_feed [{ url := "u".toList, mls_id := "M".toList, status := "Sold".toList }] = (none, 0) := by
  have hnone : (write_feed [{ url := "u".toList, mls_id := "M".toList, status := "Sold".toList }]).1 = none := by
    decide
  exact ⟨hnone, write_feed_no_write_on_empty.2.2 _ hnone⟩

/-- C7: `is_stale` is true iff there is no entry for the URL or its
last-scraped time is strictly older than now minus the window; an entry
scraped at `T` is stale at `T + window + ε` and not stale at
`T + window − ε` for `ε > 0`; `filter_stale` keeps exactly the stale URLs,
as an order-preserving sublist of the input. -/
theorem is_stale_characterization :
    (∀ entries window now url,
      is_stale entries window now url = true ↔
        lookupEntry entries url = none ∨
        ∃ e, lookupEntry entries url = some e ∧ e.last_scraped < now - window) ∧
    (∀ entries window now urls u,
      u ∈ filter_stale entries window now urls ↔
        u ∈ urls ∧ is_stale entries window now u = true) ∧
    (∀ entries window now urls,
      (filter_stale entries window now urls).Sublist urls) ∧
    (∀ entries window url e T ε,
      lookupEntry entries url = some e → e.last_scraped = T → 0 < ε →
      is_stale entries window (T + window + ε) url = true ∧
      is_stale entries window (T + window - ε) url = false) := by
  refine ⟨?_, ?_, ?_, ?_⟩
  · intro entries window now url
    cases h : lookupEntry entries url with
    | none => simp [is_stale, h]
    | some e => simp [is_stale, h]
  · intro entries window now urls u
    simp [filter_stale, List.mem_filter]
  · intro entries window now urls
    exact List.filter_sublist _
  · intro entries window url e T ε hl hT hε
    subst hT
    constructor
    · simp only [is_stale, hl, decide_eq_true_eq]
      linarith
    · simp only [is_stale, hl, decide_eq_false_iff_not]
      intro hcon
      linarith

/-- Witness for `is_stale_characterization`: a concrete entry scraped at
time 10 with a window of 5 is stale at 16 and fresh at 14. -/
theorem is_stale_characterization_witness :
    is_stale [("u".toList, { url := "u".toList, last_scraped := 10 })] 5 16 ("u".toList) = true ∧
    is_stale [("u".toList, { url := "u".toList, last_scraped := 10 })] 5 14 ("u".toList) = false := by
  have h := is_stale_characterization.2.2.2
    [("u".toList, { url := "u".toList, last_scraped := 10 })] 5 ("u".toList)
    { url := "u".toList, last_scraped := 10 } 10 1 (by norm_num [lookupEntry]) rfl (by norm_num)
  have h1 : (10 : ℚ) + 5 + 1 = 16 := by norm_num
  have h2 : (10 : ℚ) + 5 - 1 = 14 := by norm_num
  rw [h1, h2] at h
  exact h

/-- A helper: the rows written by `write_feed` are exactly the projections
of the filtered listings. -/
theorem write_feed_some_rows (listings : List Listing) (rows : List FeedRow)
    (h : (write_feed listings).1 = some rows) :
    rows = (listings.filter feedFilter).map FeedRow.from_listing := by
  unfold write_feed at h
  by_cases he : (listings.filter feedFilter).isEmpty
  · rw [if_pos he] at h
    cases h
  · rw [if_neg he] at h
    exact (Option.some_inj.mp h).symm

/-- C10: the Listing ID column is the site-internal (lofty) id — set from
the API item id in `_fetch_page` — and the MLS id is only an emission
gate: it appears in no feed column (`from_listing` is invariant under
changing it), while every emitted row's listing comes from a listing with
a non-empty MLS id. -/
theorem feed_row_uses_lofty_id :
    (∀ l : Listing, (FeedRow.from_listing l).listing_id = l.lofty_id) ∧
    (∀ (l : Listing) (m : List Char),
      FeedRow.from_listing { l with mls_id := m } = FeedRow.from_listing l) ∧
    (∀ (listings : List Listing) (rows : List FeedRow) (r : FeedRow),
      (write_feed listings).1 = some rows → r ∈ rows →
      ∃ l, l ∈ listings ∧ l.mls_id ≠ [] ∧ r = FeedRow.from_listing l ∧
        r.listing_id = l.lofty_id) ∧
    (∀ (base : List Char) (item : RawItem) (l : Listing),
      convertItem base item = some l →
      l.lofty_id = Nat.toDigits 10 item.id ∧ l.mls_id = item.mlsId) := by
  refine ⟨fun l => rfl, fun l m => rfl, ?_, ?_⟩
  · intro listings rows r hrows hr
    rw [write_feed_some_rows listings rows hrows] at hr
    obtain ⟨l, hl, rfl⟩ := List.mem_map.mp hr
    have hmem := List.mem_filter.mp hl
    have hf := (feedFilter_eq_true l).mp hmem.2
    exact ⟨l, hmem.1, hf.2, rfl, rfl⟩
  · intro base item l h
    unfold convertItem at h
    by_cases hid : item.id = 0
    · rw [if_pos hid] at h
      cases h
    · rw [if_neg hid] at h
      injection h with h
      subst h
      exact ⟨rfl, rfl⟩

/-- Witness for `feed_row_uses_lofty_id`: converting a concrete item with
id 7 yields a listing whose lofty id is the decimal rendering of 7 and
whose MLS id is the item's. -/
theorem feed_row_uses_lofty_id_witness :
    convertItem [] { id := 7, mlsId := "M7".toList } =
      some { url := [], lofty_id := ['7'], mls_id := "M7".toList,
             status := "Active".toList, city := [','] } ∧
    Nat.toDigits 10 7 = ['7'] := by
  have hc : convertItem [] { id := 7, mlsId := "M7".toList } =
      some { url := [], lofty_id := ['7'], mls_id := "M7".toList,
             status := "Active".toList, city := [','] } := by decide
  have h := feed_row_uses_lofty_id.2.2.2 [] { id := 7, mlsId := "M7".toList } _ hc
  exact ⟨hc, h.1.symm.trans rfl⟩

/-- With no configured maximum, the loop walks pages `page..page+c` (the
first `c` full, the last short) and returns everything in page order. -/
theorem discoverLoop_no_max (c : Nat) :
    ∀ (fetch : Nat → List Listing) (fuel page : Nat) (acc : List Listing),
      (∀ i, page ≤ i → i < page + c → (fetch i).length = PAGE_SIZE) →
      (fetch (page + c)).length < PAGE_SIZE →
      c < fuel →
      discoverLoop fetch 0 fuel page acc =
        some (acc ++ (List.range' page (c + 1)).flatMap fetch) := by
  induction c with
  | zero =>
    intro fetch fuel page acc hfull hshort hfuel
    obtain ⟨f, rfl⟩ : ∃ f, fuel = f + 1 := ⟨fuel - 1, by omega⟩
    rw [List.range'_succ]
    by_cases hemp : (fetch page).isEmpty
    · have hnil : fetch page = [] := List.isEmpty_iff.mp hemp
      simp [discoverLoop, hemp, hnil]
    · have hlt : (fetch page).length < PAGE_SIZE := by simpa using hshort
      simp [discoverLoop, hemp, hlt]
  | succ c ih =>
    intro fetch fuel page acc hfull hshort hfuel
    obtain ⟨f, rfl⟩ : ∃ f, fuel = f + 1 := ⟨fuel - 1, by omega⟩
    have hp : (fetch page).length = PAGE_SIZE := hfull page le_rfl (by omega)
    have hemp : (fetch page).isEmpty = false := by
      rw [List.isEmpty_eq_false]
      intro hh
      rw [hh] at hp
      simp [PAGE_SIZE] at hp
    have hnlt : ¬((fetch page).length < PAGE_SIZE) := by omega
    have hrec := ih fetch f (page + 1) (acc ++ fetch page)
      (fun i h1 h2 => hfull i (by omega) (by omega))
      (by
        have h := hshort
        rw [show page + (c + 1) = (page + 1) + c by omega] at h
        exact h)
      (by omega)
    simp only [discoverLoop, hemp, Bool.false_eq_true, if_false, hnlt, ite_false]
    rw [if_neg (by simp), hrec]
    simp [List.range'_succ, List.flatMap_cons, List.append_assoc]

/-- With a non-zero maximum reached on the run of full pages
`page..page+c`, the loop truncates the accumulated list to the maximum. -/
theorem discoverLoop_max (c : Nat) :
    ∀ (fetch : Nat → List Listing) (maxL fuel page : Nat) (acc : List Listing),
      maxL ≠ 0 →
      (∀ i, page ≤ i → i ≤ page + c → (fetch i).length = PAGE_SIZE) →
      acc.length + PAGE_SIZE = page * PAGE_SIZE →
      (page + c) * PAGE_SIZE < maxL + PAGE_SIZE →
      maxL ≤ (page + c) * PAGE_SIZE →
      c < fuel →
      discoverLoop fetch maxL fuel page acc =
        some ((acc ++ (List.range' page (c + 1)).flatMap fetch).take maxL) := by
  induction c with
  | zero =>
    intro fetch maxL fuel page acc hmax hfull hinv hlow hhigh hfuel
    obtain ⟨f, rfl⟩ : ∃ f, fuel = f + 1 := ⟨fuel - 1, by omega⟩
    have hp : (fetch page).length = PAGE_SIZE := hfull page le_rfl (by omega)
    have hemp : (fetch page).isEmpty = false := by
      rw [List.isEmpty_eq_false]
      intro hh
      rw [hh] at hp
      simp [PAGE_SIZE] at hp
    have hnlt : ¬((fetch page).length < PAGE_SIZE) := by omega
    have hreach : maxL ≤ (acc ++ fetch page).length := by
      rw [List.length_append, hp, hinv]
      simpa using hhigh
    simp only [discoverLoop, hemp, Bool.false_eq_true, if_false, hnlt, ite_false]
    rw [if_pos ⟨hmax, hreach⟩]
    simp [List.range'_succ]
  | succ c ih =>
    intro fetch maxL fuel page acc hmax hfull hinv hlow hhigh hfuel
    obtain ⟨f, rfl⟩ : ∃ f, fuel = f + 1 := ⟨fuel - 1, by omega⟩
    have hp : (fetch page).length = PAGE_SIZE := hfull page le_rfl (by omega)
    have hemp : (fetch page).isEmpty = false := by
      rw [List.isEmpty_eq_false]
      intro hh
      rw [hh] at hp
      simp [PAGE_SIZE] at hp
    have hnlt : ¬((fetch page).length < PAGE_SIZE) := by omega
    have hnreach : ¬(maxL ≠ 0 ∧ maxL ≤ (acc ++ fetch page).length) := by
      rw [List.length_append, hp]
      intro hand
      have hcon := hand.2
      simp only [PAGE_SIZE] at hinv hlow hcon
      omega
    have hinv2 : (acc ++ fetch page).length + PAGE_SIZE = (page + 1) * PAGE_SIZE := by
      rw [List.length_append, hp]
      simp only [PAGE_SIZE] at hinv ⊢
      omega
    have hlow2 : ((page + 1) + c) * PAGE_SIZE < maxL + PAGE_SIZE := by
      simp only [PAGE_SIZE] at hlow ⊢
      omega
    have hhigh2 : maxL ≤ ((page + 1) + c) * PAGE_SIZE := by
      simp only [PAGE_SIZE] at hhigh ⊢
      omega
    have hrec := ih fetch maxL f (page + 1) (acc ++ fetch page) hmax
      (fun i h1 h2 => hfull i (by omega) (by omega)) hinv2 hlow2 hhigh2 (by omega)
    simp only [discoverLoop, hemp, Bool.false_eq_true, if_false, hnlt, ite_false]
    rw [if_neg hnreach, hrec]
    simp [List.range'_succ, List.flatMap_cons, List.append_assoc]

/-- C3: starting at page 1 with strictly increasing page numbers, the
Discoverer accumulates converted listings in page-then-within-page order
(`(List.range' 1 k).flatMap`), and stops exactly at the first page whose
batch is shorter than the fixed page size of 100 — a failed or empty page
counting as such, everything accumulated so far kept — or, for a non-zero
configured maximum reached on full pages, stops there and truncates the
result to the maximum; with `fuel = k` the loop terminates after page `k`.
A failed session yields the empty list. -/
theorem discover_pagination :
    (∀ (api : Nat → Option (List RawItem)) (base : List Char) (k fuel : Nat),
      1 ≤ k →
      (∀ i, 1 ≤ i → i < k → (fetch_page api base i).length = PAGE_SIZE) →
      (fetch_page api base k).length < PAGE_SIZE →
      k ≤ fuel →
      discover_and_extract true api base 0 fuel =
        some ((List.range' 1 k).flatMap (fetch_page api base))) ∧
    (∀ (api : Nat → Option (List RawItem)) (base : List Char) (m maxL fuel : Nat),
      1 ≤ m → maxL ≠ 0 →
      (∀ i, 1 ≤ i → i ≤ m → (fetch_page api base i).length = PAGE_SIZE) →
      (m - 1) * PAGE_SIZE < maxL →
      maxL ≤ m * PAGE_SIZE →
      m ≤ fuel →
      discover_and_extract true api base maxL fuel =
        some (((List.range' 1 m).flatMap (fetch_page api base)).take maxL)) ∧
    (∀ (api : Nat → Option (List RawItem)) (base : List Char) (maxL fuel : Nat),
      discover_and_extract false api base maxL fuel = some []) := by
  refine ⟨?_, ?_, ?_⟩
  · intro api base k fuel hk hfull hshort hfuel
    unfold discover_and_extract
    rw [if_pos rfl]
    have h := discoverLoop_no_max (k - 1) (fetch_page api base) fuel 1 []
      (fun i h1 h2 => hfull i h1 (by omega))
      (by rw [show 1 + (k - 1) = k by omega]; exact hshort)
      (by omega)
    rw [show k - 1 + 1 = k by omega] at h
    simpa using h
  · intro api base m maxL fuel hm hmax hfull hlow hhigh hfuel
    unfold discover_and_extract
    rw [if_pos rfl]
    have h := discoverLoop_max (m - 1) (fetch_page api base) maxL fuel 1 [] hmax
      (fun i h1 h2 => hfull i h1 (by omega))
      (by simp [PAGE_SIZE])
      (by
        rw [show 1 + (m - 1) = m by omega]
        simp only [PAGE_SIZE] at hlow ⊢
        omega)
      (by rw [show 1 + (m - 1) = m by omega]; exact hhigh)
      (by omega)
    rw [show m - 1 + 1 = m by omega] at h
    simpa using h
  · intro api base maxL fuel
    rfl

/-- Witness for `discover_pagination`: a search capability returning
exactly 100 items on pages 1 and 2 and one item on page 3; with fuel for
exactly three pages the Discoverer returns the concatenation of the three
pages' conversions. -/
theorem discover_pagination_witness :
    let api : Nat → Option (List RawItem) :=
      fun n => if n ≤ 2 then some (List.replicate 100 { id := 1 }) else some [{ id := 1 }]
    discover_and_extract true api [] 0 3 =
      some ((List.range' 1 3).flatMap (fetch_page api [])) := by
  exact discover_pagination.1
    (fun n => if n ≤ 2 then some (List.replicate 100 { id := 1 }) else some [{ id := 1 }])
    [] 3 3 (by omega)
    (by
      intro i h1 h2
      have hi : i = 1 ∨ i = 2 := by omega
      rcases hi with rfl | rfl
      · decide
      · decide)
    (by decide) le_rfl

end Scraper
